import Mathlib

/-!
Verification of the posts.json generation script (the static content-indexing
pipeline): the script enumerates the direct subdirectories of the content root,
reads each subdirectory's index.md, parses its YAML front matter with
gray-matter, keeps a post exactly when both data.title and data.summary are
truthy, and finally writes the collected records to public/posts.json via
JSON.stringify(posts, null, 2).

The embedding models the JavaScript values stored in parsed front matter
(YAML scalars) together with JavaScript truthiness, the filesystem as seen by
the script (the root's readdir enumeration plus the state of each
subdirectory's index.md), and the run of the whole script as a pure function
from that filesystem to the written artifact and the process exit code.
Exceptions thrown by readdirSync, readFileSync or the YAML parser are modelled
with Except, since the script installs no exception handler: any throw aborts
the run with a non-zero exit before the output file is written.
-/

/-- A JavaScript value as produced by gray-matter's YAML parsing for a single
front-matter scalar (strings, numbers, booleans, null). -/
inductive JSValue where
  | str (s : String)
  | num (n : Int)
  | bool (b : Bool)
  | null
deriving DecidableEq, Repr

/-- JavaScript truthiness, as tested by the expression
`data.title && data.summary`: a string is truthy exactly when it is non-empty,
a number exactly when it is non-zero, `null` is falsy. -/
def JSValue.truthy : JSValue → Bool
  | .str s => s != ""
  | .num n => n != 0
  | .bool b => b
  | .null => false

/-- Parsed front matter: the key/value mapping held in gray-matter's `data`
object (keys unique, insertion order preserved). A property lookup
`data.k` is `List.lookup k` on this association list, `none` playing the
role of JavaScript's `undefined` (which is falsy). -/
abbrev FrontMatter := List (String × JSValue)

/-- The primary document of one subdirectory, as seen by gray-matter:
either it has no leading front-matter block (gray-matter then returns an
empty `data` object), or it has a well-formed block which parses to a
mapping, or the block is present but not valid YAML (gray-matter then
propagates the YAML parser's exception). -/
inductive Doc where
  | noFront (body : String)
  | front (data : FrontMatter) (body : String)
  | malformed
deriving DecidableEq, Repr

/-- The state of the file `<dir>/<folder>/index.md`: missing, present but
unreadable (e.g. permissions), or readable with the given document. -/
inductive FileState where
  | absent
  | unreadable
  | readable (d : Doc)
deriving DecidableEq, Repr

/-- `fs.existsSync(postFile)`: true exactly when the file is present. -/
def FileState.existsSync : FileState → Bool
  | .absent => false
  | .unreadable => true
  | .readable _ => true

/-- `fs.readFileSync(postFile, 'utf-8')`: returns the document, or throws
(EACCES on an unreadable file; ENOENT cannot occur after existsSync). -/
def FileState.readFileSync : FileState → Except String Doc
  | .absent => .error "ENOENT"
  | .unreadable => .error "EACCES"
  | .readable d => .ok d

/-- One entry of `fs.readdirSync(dir, { withFileTypes: true })`: a name and
its `isDirectory()` flag. -/
structure Dirent where
  name : String
  isDirectory : Bool
deriving DecidableEq, Repr

/-- The filesystem as the script observes it: whether the content root
exists, the readdir enumeration of the root (in enumeration order), and for
each subdirectory name the state of its index.md. -/
structure FS where
  rootExists : Bool
  entries : List Dirent
  file : String → FileState

/-- `matter(content)`: splits the document into front matter and body and
returns the parsed `data` mapping. A document without a leading front-matter
block yields an empty mapping; a block that is not valid YAML makes the YAML
parser throw, and gray-matter propagates the exception. -/
def matter : Doc → Except String FrontMatter
  | .noFront _ => .ok []
  | .front data _ => .ok data
  | .malformed => .error "YAMLException"

/-- One emitted record: the object literal
`{ title: data.title, summary: data.summary, url }` pushed onto `posts`. -/
structure Post where
  title : JSValue
  summary : JSValue
  url : String
deriving DecidableEq, Repr

/-- The body of the `for (const folder of folders)` loop for one folder name:
if index.md exists it is read (a throw propagates), parsed by gray-matter
(a throw propagates), and when `data.title && data.summary` is truthy the
record is produced; otherwise the folder contributes nothing. -/
def processFolder (fs : FS) (name : String) : Except String (Option Post) :=
  if (fs.file name).existsSync then
    match (fs.file name).readFileSync with
    | .error e => .error e
    | .ok doc =>
      match matter doc with
      | .error e => .error e
      | .ok data =>
        match data.lookup "title", data.lookup "summary" with
        | some t, some s =>
          if t.truthy && s.truthy then
            .ok (some { title := t, summary := s, url := "/blog/" ++ name })
          else
            .ok none
        | _, _ => .ok none
  else
    .ok none

/-- The loop over `folders`, accumulating `posts` in order; the first
uncaught exception aborts the whole loop. -/
def scanFolders (fs : FS) : List Dirent → Except String (List Post)
  | [] => .ok []
  | f :: rest =>
    match processFolder fs f.name with
    | .error e => .error e
    | .ok op =>
      match scanFolders fs rest with
      | .error e => .error e
      | .ok ps =>
        .ok (match op with
             | some p => p :: ps
             | none => ps)

/-- `getPostsFromDir(dir)`: readdirSync throws if the root is missing
(aborting the run); otherwise only the entries with `isDirectory()` are
visited, in enumeration order. -/
def getPostsFromDir (fs : FS) : Except String (List Post) :=
  if fs.rootExists then
    scanFolders fs (fs.entries.filter (fun f => f.isDirectory))
  else
    .error "ENOENT"

/-- One hexadecimal digit, lower case, as used by JSON.stringify in
\u00XX escapes. -/
def hexDigitChar (n : Nat) : Char :=
  if n < 10 then Char.ofNat (48 + n) else Char.ofNat (87 + n)

/-- JSON.stringify's escaping of a single character inside a string
literal: quote, backslash and control characters are escaped, every other
character is emitted verbatim. -/
def escapeChar (c : Char) : String :=
  if c = Char.ofNat 34 then "\\\""
  else if c = Char.ofNat 92 then "\\\\"
  else if c = Char.ofNat 8 then "\\b"
  else if c = Char.ofNat 9 then "\\t"
  else if c = Char.ofNat 10 then "\\n"
  else if c = Char.ofNat 12 then "\\f"
  else if c = Char.ofNat 13 then "\\r"
  else if c.toNat < 32 then
    "\\u00" ++ String.singleton (hexDigitChar (c.toNat / 16))
            ++ String.singleton (hexDigitChar (c.toNat % 16))
  else
    String.singleton c

/-- A JSON string literal for `s`, as produced by JSON.stringify. -/
def quoteJSON (s : String) : String :=
  "\"" ++ String.join (s.data.map escapeChar) ++ "\""

/-- JSON.stringify of one front-matter scalar value. -/
def stringifyJSValue : JSValue → String
  | .str s => quoteJSON s
  | .num n => toString n
  | .bool true => "true"
  | .bool false => "false"
  | .null => "null"

/-- The own enumerable properties of one record, in insertion order — the
order of the object literal `{ title, summary, url }`, which is the order
JSON.stringify serializes them in. -/
def postFields (p : Post) : List (String × JSValue) :=
  [("title", p.title), ("summary", p.summary), ("url", .str p.url)]

/-- One `"key": value` line of a record, at depth 2 of
JSON.stringify(posts, null, 2). -/
def stringifyField (kv : String × JSValue) : String :=
  "    " ++ quoteJSON kv.1 ++ ": " ++ stringifyJSValue kv.2

/-- One record object as serialized at depth 1 of
JSON.stringify(posts, null, 2). -/
def stringifyPost (p : Post) : String :=
  "\x7b\n" ++ String.intercalate ",\n" ((postFields p).map stringifyField)
  ++ "\n  \x7d"

/-- `JSON.stringify(posts, null, 2)`: the empty array serializes to `[]`,
a non-empty one to a pretty-printed array with two-space indentation. -/
def stringifyPosts (posts : List Post) : String :=
  match posts with
  | [] => "[]"
  | _ =>
    "[\n" ++ String.intercalate ",\n" (posts.map (fun p => "  " ++ stringifyPost p))
    ++ "\n]"

/-- The world the whole script acts on: the filesystem under the content
root and the current contents of public/posts.json (none if absent). -/
structure World where
  fs : FS
  output : Option String

/-- The whole script run: `getPostsFromDir(postsDir)` followed by
`fs.writeFileSync(outputFile, JSON.stringify(posts, null, 2))`. An uncaught
exception terminates the Node process with exit code 1 before the write;
on success the artifact is overwritten and the process exits 0. -/
def runPipeline (w : World) : World × Nat :=
  match getPostsFromDir w.fs with
  | .error _ => (w, 1)
  | .ok posts => ({ w with output := some (stringifyPosts posts) }, 0)

/-- A file state that does not make the run throw: anything except an
unreadable file or a document whose front-matter block fails to parse. -/
def FileState.benign : FileState → Bool
  | .unreadable => false
  | .readable .malformed => false
  | _ => true

/-- The pure validation-and-mapping decision for one subdirectory name and
its parsed front matter: the record produced when `data.title` and
`data.summary` are both truthy, and nothing otherwise. -/
def validRecord (name : String) (data : FrontMatter) : Option Post :=
  match data.lookup "title", data.lookup "summary" with
  | some t, some s =>
    if t.truthy && s.truthy then
      some { title := t, summary := s, url := "/blog/" ++ name }
    else
      none
  | _, _ => none

/-- The record (if any) a subdirectory contributes on a run that does not
throw: its index.md must exist, be readable, and carry a parseable
front-matter block whose title and summary validate. -/
def includedRecord (fs : FS) (name : String) : Option Post :=
  match fs.file name with
  | .readable (.front data _) => validRecord name data
  | _ => none

/-- Front matter of a representative post: a non-empty title and summary,
plus unrelated fields, among them a `url` field that the pipeline must
ignore. -/
def sampleFront : FrontMatter :=
  [("title", .str "Task vs ValueTask in C#"),
   ("summary", .str "A clear and practical guide"),
   ("url", .str "/override/custom"),
   ("date", .str "2025-11-15")]

/-- A representative content root: a valid post, a draft with an empty
summary, a plain file, and a subdirectory without index.md. -/
def fsSample : FS where
  rootExists := true
  entries := [⟨"01-post", true⟩, ⟨"02-draft", true⟩, ⟨"notes.txt", false⟩,
              ⟨"03-empty", true⟩]
  file := fun n =>
    if n = "01-post" then .readable (.front sampleFront "body")
    else if n = "02-draft" then
      .readable (.front [("title", .str "C"), ("summary", .str "")] "body")
    else .absent

/-- The one record fsSample yields. -/
def samplePost : Post :=
  { title := .str "Task vs ValueTask in C#",
    summary := .str "A clear and practical guide",
    url := "/blog/01-post" }

/-- Like fsSample, but with an observably identical file function that
differs outside the enumerated entries. -/
def fsSampleTwin : FS where
  rootExists := true
  entries := [⟨"01-post", true⟩, ⟨"02-draft", true⟩, ⟨"notes.txt", false⟩,
              ⟨"03-empty", true⟩]
  file := fun n =>
    if n = "01-post" then .readable (.front sampleFront "body")
    else if n = "02-draft" then
      .readable (.front [("title", .str "C"), ("summary", .str "")] "body")
    else if n = "zzz-unlisted" then .unreadable
    else .absent

/-- A root holding one subdirectory with an unreadable index.md followed by
a perfectly valid post. -/
def fsUnreadable : FS where
  rootExists := true
  entries := [⟨"bad-post", true⟩, ⟨"good-post", true⟩]
  file := fun n =>
    if n = "bad-post" then .unreadable
    else if n = "good-post" then
      .readable (.front [("title", .str "Good"), ("summary", .str "Fine")] "body")
    else .absent

/-- A root whose only subdirectory has an unreadable index.md. -/
def fsOnlyUnreadable : FS where
  rootExists := true
  entries := [⟨"post", true⟩]
  file := fun n => if n = "post" then .unreadable else .absent

/-- A missing content root. -/
def fsMissingRoot : FS where
  rootExists := false
  entries := []
  file := fun _ => .absent

/-- An existing content root with no subdirectory at all. -/
def fsEmptyRoot : FS where
  rootExists := true
  entries := [⟨"README.md", false⟩]
  file := fun _ => .absent

example : getPostsFromDir fsSample = .ok [samplePost] := rfl

example : getPostsFromDir fsUnreadable = .error "EACCES" := rfl

theorem processFolder_benign (fs : FS) (name : String)
    (h : (fs.file name).benign = true) :
    processFolder fs name = .ok (includedRecord fs name) := by
  cases hf : fs.file name with
  | absent =>
    simp [processFolder, includedRecord, hf, FileState.existsSync]
  | unreadable => rw [hf] at h; simp [FileState.benign] at h
  | readable d =>
    cases d with
    | noFront body =>
      simp [processFolder, includedRecord, hf, FileState.existsSync,
        FileState.readFileSync, matter, List.lookup]
    | malformed => rw [hf] at h; simp [FileState.benign] at h
    | front data body =>
      simp only [processFolder, includedRecord, validRecord, hf, FileState.existsSync,
        FileState.readFileSync, matter, if_true]
      cases ht : data.lookup "title" with
      | none => rfl
      | some t =>
        cases hs : data.lookup "summary" with
        | none => rfl
        | some s =>
          by_cases hc : (t.truthy && s.truthy) = true
          · simp [hc]
          · simp [hc]

theorem processFolder_unreadable (fs : FS) (name : String)
    (h : fs.file name = .unreadable) :
    processFolder fs name = .error "EACCES" := by
  unfold processFolder
  rw [h]
  rfl

theorem processFolder_malformed (fs : FS) (name : String)
    (h : fs.file name = .readable .malformed) :
    processFolder fs name = .error "YAMLException" := by
  unfold processFolder
  rw [h]
  rfl

theorem processFolder_ok (fs : FS) (name : String) (op : Option Post)
    (h : processFolder fs name = .ok op) : op = includedRecord fs name := by
  cases hb : (fs.file name).benign with
  | true =>
    rw [processFolder_benign fs name hb] at h
    exact (Except.ok.inj h).symm
  | false =>
    cases hf : fs.file name with
    | absent => rw [hf] at hb; simp [FileState.benign] at hb
    | unreadable => rw [processFolder_unreadable fs name hf] at h; simp at h
    | readable d =>
      cases d with
      | noFront body => rw [hf] at hb; simp [FileState.benign] at hb
      | front data body => rw [hf] at hb; simp [FileState.benign] at hb
      | malformed => rw [processFolder_malformed fs name hf] at h; simp at h

theorem scanFolders_ok (fs : FS) (l : List Dirent) (posts : List Post)
    (h : scanFolders fs l = .ok posts) :
    posts = l.filterMap (fun f => includedRecord fs f.name) := by
  induction l generalizing posts with
  | nil =>
    simp only [scanFolders] at h
    rw [← Except.ok.inj h]
    rfl
  | cons f rest ih =>
    rw [scanFolders] at h
    cases hp : processFolder fs f.name with
    | error e => rw [hp] at h; simp at h
    | ok op =>
      rw [hp] at h
      cases hs : scanFolders fs rest with
      | error e => rw [hs] at h; simp at h
      | ok ps =>
        rw [hs] at h
        have hps := ih ps hs
        have hop := processFolder_ok fs f.name op hp
        have hpost := Except.ok.inj h
        rw [List.filterMap_cons, ← hop]
        cases op with
        | some p => rw [← hpost, hps]
        | none => rw [← hpost, hps]

theorem scanFolders_benign (fs : FS) (l : List Dirent)
    (h : ∀ f ∈ l, (fs.file f.name).benign = true) :
    scanFolders fs l = .ok (l.filterMap (fun f => includedRecord fs f.name)) := by
  induction l with
  | nil => rfl
  | cons f rest ih =>
    have hf := h f (List.mem_cons_self f rest)
    have hr := ih (fun g hg => h g (List.mem_cons_of_mem f hg))
    rw [scanFolders, processFolder_benign fs f.name hf, hr, List.filterMap_cons]
    cases includedRecord fs f.name <;> rfl

theorem scanFolders_congr (fs₁ fs₂ : FS) (l : List Dirent)
    (h : ∀ f ∈ l, fs₁.file f.name = fs₂.file f.name) :
    scanFolders fs₁ l = scanFolders fs₂ l := by
  induction l with
  | nil => rfl
  | cons f rest ih =>
    have hf : processFolder fs₁ f.name = processFolder fs₂ f.name := by
      unfold processFolder
      rw [h f (List.mem_cons_self f rest)]
    rw [scanFolders, scanFolders, hf, ih (fun g hg => h g (List.mem_cons_of_mem f hg))]

theorem getPostsFromDir_ok (fs : FS) (posts : List Post)
    (h : getPostsFromDir fs = .ok posts) :
    fs.rootExists = true ∧
      posts = (fs.entries.filter (fun f => f.isDirectory)).filterMap
        (fun f => includedRecord fs f.name) := by
  unfold getPostsFromDir at h
  cases hr : fs.rootExists with
  | false => rw [hr] at h; simp at h
  | true =>
    rw [hr] at h
    simp only [if_true] at h
    exact ⟨rfl, scanFolders_ok fs _ posts h⟩

theorem blogUrlInjective (a b : String)
    (h : "/blog/" ++ a = "/blog/" ++ b) : a = b := by
  have hd := congrArg String.data h
  simp only [String.data_append] at hd
  exact String.ext (List.append_cancel_left hd)

theorem mem_ok_posts (fs : FS) (posts : List Post) (p : Post)
    (hok : getPostsFromDir fs = .ok posts) (hp : p ∈ posts) :
    ∃ d, d ∈ fs.entries ∧ d.isDirectory = true ∧ includedRecord fs d.name = some p := by
  obtain ⟨-, hchar⟩ := getPostsFromDir_ok fs posts hok
  rw [hchar] at hp
  obtain ⟨d, hd, hinc⟩ := List.mem_filterMap.mp hp
  have hmf := List.mem_filter.mp hd
  exact ⟨d, hmf.1, hmf.2, hinc⟩

theorem includedRecord_url (fs : FS) (name : String) (p : Post)
    (h : includedRecord fs name = some p) : p.url = "/blog/" ++ name := by
  cases hf : fs.file name with
  | absent => simp [includedRecord, hf] at h
  | unreadable => simp [includedRecord, hf] at h
  | readable d =>
    cases d with
    | noFront body => simp [includedRecord, hf] at h
    | malformed => simp [includedRecord, hf] at h
    | front data body =>
      simp only [includedRecord, validRecord, hf] at h
      cases ht : data.lookup "title" with
      | none => rw [ht] at h; simp at h
      | some t =>
        cases hs : data.lookup "summary" with
        | none => rw [ht, hs] at h; simp at h
        | some s =>
          rw [ht, hs] at h
          by_cases hts : (t.truthy && s.truthy) = true
          · simp only [hts, if_true, Option.some.injEq] at h
            rw [← h]
          · simp [hts] at h

theorem scanFolders_skip (fs : FS) (d : Dirent)
    (hd : processFolder fs d.name = .ok none) (l₁ l₂ : List Dirent) :
    scanFolders fs (l₁ ++ d :: l₂) = scanFolders fs (l₁ ++ l₂) := by
  induction l₁ with
  | nil =>
    simp only [List.nil_append]
    rw [scanFolders, hd]
    cases scanFolders fs l₂ <;> rfl
  | cons f rest ih =>
    simp only [List.cons_append]
    rw [scanFolders, scanFolders, ih]

theorem scanFolders_error (fs : FS) (d : Dirent) (e : String)
    (hd : processFolder fs d.name = .error e) (l₁ l₂ : List Dirent)
    (hbenign : ∀ f ∈ l₁, (fs.file f.name).benign = true) :
    scanFolders fs (l₁ ++ d :: l₂) = .error e := by
  induction l₁ with
  | nil =>
    simp only [List.nil_append]
    rw [scanFolders, hd]
  | cons f rest ih =>
    simp only [List.cons_append]
    rw [scanFolders, processFolder_benign fs f.name (hbenign f (List.mem_cons_self f rest)),
      ih (fun g hg => hbenign g (List.mem_cons_of_mem f hg))]

theorem filterByUrl_not_mem (fs : FS) (n : String) (l : List Dirent)
    (hmem : n ∉ l.map Dirent.name) :
    (l.filterMap (fun f => includedRecord fs f.name)).filter
      (fun p => p.url == "/blog/" ++ n) = [] := by
  induction l with
  | nil => rfl
  | cons f rest ih =>
    have hfn : f.name ≠ n := by
      intro hcontra
      exact hmem (by simp [hcontra])
    have hrest : n ∉ rest.map Dirent.name := by
      intro hcontra
      exact hmem (by simp [hcontra])
    rw [List.filterMap_cons]
    cases hi : includedRecord fs f.name with
    | none => exact ih hrest
    | some p =>
      have hurl : (p.url == "/blog/" ++ n) = false := by
        rw [includedRecord_url fs f.name p hi]
        simp only [beq_eq_false_iff_ne, ne_eq]
        intro hcontra
        exact hfn (blogUrlInjective _ _ hcontra)
      rw [List.filter_cons_of_neg (by simp [hurl])]
      exact ih hrest

theorem filterByUrl_mem (fs : FS) (n : String) (l : List Dirent)
    (hnodup : (l.map Dirent.name).Nodup) (hmem : n ∈ l.map Dirent.name) :
    (l.filterMap (fun f => includedRecord fs f.name)).filter
      (fun p => p.url == "/blog/" ++ n) = (includedRecord fs n).toList := by
  induction l with
  | nil => simp at hmem
  | cons f rest ih =>
    rw [List.map_cons, List.nodup_cons] at hnodup
    rw [List.filterMap_cons]
    by_cases hf : f.name = n
    · subst hf
      have hrest : f.name ∉ rest.map Dirent.name := hnodup.1
      cases hi : includedRecord fs f.name with
      | none =>
        exact filterByUrl_not_mem fs f.name rest hrest
      | some p =>
        have hurl : (p.url == "/blog/" ++ f.name) = true := by
          rw [includedRecord_url fs f.name p hi]
          exact beq_self_eq_true _
        rw [List.filter_cons_of_pos (by simp [hurl])]
        rw [filterByUrl_not_mem fs f.name rest hrest]
        rfl
    · have hmem2 : n ∈ rest.map Dirent.name := by
        rw [List.map_cons] at hmem
        rcases List.mem_cons.mp hmem with h1 | h2
        · exact absurd h1.symm hf
        · exact h2
      cases hi : includedRecord fs f.name with
      | none => exact ih hnodup.2 hmem2
      | some p =>
        have hurl : (p.url == "/blog/" ++ n) = false := by
          rw [includedRecord_url fs f.name p hi]
          simp only [beq_eq_false_iff_ne, ne_eq]
          intro hcontra
          exact hf (blogUrlInjective _ _ hcontra)
        rw [List.filter_cons_of_neg (by simp [hurl])]
        exact ih hnodup.2 hmem2

example : stringifyPosts [] = "[]" := rfl

example :
    stringifyPosts [{ title := .str "A", summary := .str "B", url := "/blog/x" }] =
      "[\n  \x7b\n    \"title\": \"A\",\n    \"summary\": \"B\",\n    \"url\": \"/blog/x\"\n  \x7d\n]" :=
  rfl

theorem dirs_names_nodup (fs : FS) (h : (fs.entries.map Dirent.name).Nodup) :
    ((fs.entries.filter (fun f => f.isDirectory)).map Dirent.name).Nodup :=
  List.Nodup.sublist (List.Sublist.map Dirent.name (List.filter_sublist _)) h

/-- Claim C1: for every direct subdirectory of the content root whose
index.md exists with parseable front matter, if the front matter holds both
a title and a summary key with non-empty string values then exactly one
record with exactly those values is emitted for it, and if title or summary
is missing or is the empty string then no record is emitted for it;
non-emptiness is the only check applied to the two string values. -/
theorem C1_record_iff_valid (fs : FS) (posts : List Post) (d : Dirent)
    (data : FrontMatter) (body : String)
    (hok : getPostsFromDir fs = .ok posts)
    (hnodup : (fs.entries.map Dirent.name).Nodup)
    (hd : d ∈ fs.entries) (hdir : d.isDirectory = true)
    (hfile : fs.file d.name = .readable (.front data body)) :
    (∀ t s : String, data.lookup "title" = some (.str t) →
      data.lookup "summary" = some (.str s) → t ≠ "" → s ≠ "" →
      posts.filter (fun p => p.url == "/blog/" ++ d.name) =
        [{ title := .str t, summary := .str s, url := "/blog/" ++ d.name }]) ∧
    ((data.lookup "title" = none ∨ data.lookup "summary" = none ∨
      data.lookup "title" = some (.str "") ∨ data.lookup "summary" = some (.str "")) →
      posts.filter (fun p => p.url == "/blog/" ++ d.name) = []) := by
  obtain ⟨-, hchar⟩ := getPostsFromDir_ok fs posts hok
  have hdmem : d.name ∈ (fs.entries.filter (fun f => f.isDirectory)).map Dirent.name :=
    List.mem_map_of_mem Dirent.name (List.mem_filter.mpr ⟨hd, hdir⟩)
  rw [hchar, filterByUrl_mem fs d.name _ (dirs_names_nodup fs hnodup) hdmem]
  constructor
  · intro t s ht hs htne hsne
    have hrec : includedRecord fs d.name =
        some { title := .str t, summary := .str s, url := "/blog/" ++ d.name } := by
      simp [includedRecord, validRecord, hfile, ht, hs, JSValue.truthy, htne, hsne]
    rw [hrec]
    rfl
  · intro hbad
    have hrec : includedRecord fs d.name = none := by
      simp only [includedRecord, hfile, validRecord]
      rcases hbad with h | h | h | h
      · rw [h]
      · cases ht : data.lookup "title" with
        | none => rfl
        | some t => rw [h]
      · cases hs2 : data.lookup "summary" with
        | none => rw [h]
        | some s2 => rw [h]; simp [JSValue.truthy]
      · cases ht : data.lookup "title" with
        | none => rfl
        | some t => rw [h]; simp [JSValue.truthy]
    rw [hrec]
    rfl

/-- Witness for claim C1 at the concrete root fsSample: the valid
subdirectory 01-post yields exactly its record. -/
theorem C1_record_iff_valid_witness :
    [samplePost].filter (fun p => p.url == "/blog/" ++ "01-post") = [samplePost] := by
  have h := C1_record_iff_valid fsSample [samplePost] ⟨"01-post", true⟩ sampleFront "body"
    rfl (by decide) (by decide) rfl rfl
  exact h.1 "Task vs ValueTask in C#" "A clear and practical guide" rfl rfl
    (by decide) (by decide)

/-- Counterexample to claim C2: on a root where bad-post's index.md exists
but is unreadable, the run is aborted by the uncaught readFileSync
exception and the record of the perfectly valid good-post is not emitted —
the claim instead promises a completed run that still emits it. -/
theorem C2_counterexample :
    getPostsFromDir fsUnreadable = .error "EACCES" ∧
    runPipeline { fs := fsUnreadable, output := some "[]" } =
      ({ fs := fsUnreadable, output := some "[]" }, 1) :=
  ⟨rfl, rfl⟩

/-- Claim C2 (amended): a unit whose primary document is readable but has
no leading front-matter block is treated as having empty front matter and
is dropped at validation without affecting the rest of the run; but a unit
whose document is unreadable, or whose front-matter block is unparseable,
raises an uncaught exception that aborts the entire run. -/
theorem C2_amended_policy (fs : FS) (d : Dirent) (l₁ l₂ : List Dirent) (body : String) :
    (fs.file d.name = .readable (.noFront body) →
      scanFolders fs (l₁ ++ d :: l₂) = scanFolders fs (l₁ ++ l₂)) ∧
    (fs.file d.name = .unreadable →
      (∀ f ∈ l₁, (fs.file f.name).benign = true) →
      scanFolders fs (l₁ ++ d :: l₂) = .error "EACCES") ∧
    (fs.file d.name = .readable .malformed →
      (∀ f ∈ l₁, (fs.file f.name).benign = true) →
      scanFolders fs (l₁ ++ d :: l₂) = .error "YAMLException") := by
  refine ⟨fun h => ?_, fun h hb => ?_, fun h hb => ?_⟩
  · have hp : processFolder fs d.name = .ok none := by
      simp [processFolder, h, FileState.existsSync, FileState.readFileSync, matter,
        List.lookup]
    exact scanFolders_skip fs d hp l₁ l₂
  · exact scanFolders_error fs d _ (processFolder_unreadable fs d.name h) l₁ l₂ hb
  · exact scanFolders_error fs d _ (processFolder_malformed fs d.name h) l₁ l₂ hb

/-- Witness for the amended claim C2: the unreadable bad-post aborts the
concrete scan with the EACCES exception. -/
theorem C2_amended_policy_witness :
    scanFolders fsUnreadable ([] ++ ⟨"bad-post", true⟩ :: [⟨"good-post", true⟩]) =
      .error "EACCES" :=
  (C2_amended_policy fsUnreadable ⟨"bad-post", true⟩ [] [⟨"good-post", true⟩] "").2.1
    rfl (by decide)

/-- Claim C3: every emitted record's url is exactly the fixed prefix
/blog/ concatenated with the name of the subdirectory it came from, never
a value read from front matter. -/
theorem C3_url_from_slug (fs : FS) (posts : List Post) (p : Post)
    (hok : getPostsFromDir fs = .ok posts) (hp : p ∈ posts) :
    ∃ d ∈ fs.entries, d.isDirectory = true ∧ p.url = "/blog/" ++ d.name := by
  obtain ⟨d, hd, hdir, hinc⟩ := mem_ok_posts fs posts p hok hp
  exact ⟨d, hd, hdir, includedRecord_url fs d.name p hinc⟩

/-- Witness for claim C3: in fsSample the front matter of 01-post carries
a url field /override/custom, yet the emitted record's url is
/blog/01-post. -/
theorem C3_url_from_slug_witness :
    ∃ d ∈ fsSample.entries, d.isDirectory = true ∧ samplePost.url = "/blog/" ++ d.name :=
  C3_url_from_slug fsSample [samplePost] samplePost rfl (by decide)

/-- Claim C4: when the content root does not exist the run exits non-zero
and the previous artifact, whatever it was, is left untouched; in
particular no empty-array artifact is produced. -/
theorem C4_missing_root_fatal (w : World) (h : w.fs.rootExists = false) :
    runPipeline w = (w, 1) := by
  unfold runPipeline getPostsFromDir
  rw [h]
  rfl

/-- Witness for claim C4: a missing root leaves a pre-existing artifact
byte-for-byte in place and exits 1. -/
theorem C4_missing_root_fatal_witness :
    runPipeline { fs := fsMissingRoot, output := some "[old artifact]" } =
      ({ fs := fsMissingRoot, output := some "[old artifact]" }, 1) :=
  C4_missing_root_fatal { fs := fsMissingRoot, output := some "[old artifact]" } rfl

/-- Counterexample to claim C5: a root that exists and whose single
subdirectory yields no valid record (its index.md is unreadable) makes the
run exit 1 without writing anything, where the claim promises exit 0 and a
written empty-array artifact. -/
theorem C5_counterexample :
    runPipeline { fs := fsOnlyUnreadable, output := none } =
      ({ fs := fsOnlyUnreadable, output := none }, 1) :=
  rfl

/-- Claim C5 (amended): if the content root exists and every subdirectory
either lacks index.md, or has a readable document with parseable or absent
front matter that fails title/summary validation — in particular when there
are zero subdirectories — the run exits 0 and overwrites the artifact with
the two-character JSON empty array. -/
theorem C5_empty_array_on_no_valid_units (w : World)
    (hroot : w.fs.rootExists = true)
    (hbenign : ∀ f ∈ w.fs.entries, f.isDirectory = true →
      (w.fs.file f.name).benign = true)
    (hnone : ∀ f ∈ w.fs.entries, f.isDirectory = true →
      includedRecord w.fs f.name = none) :
    runPipeline w = ({ w with output := some "[]" }, 0) := by
  have hnil : (w.fs.entries.filter (fun f => f.isDirectory)).filterMap
      (fun f => includedRecord w.fs f.name) = [] := by
    rw [List.filterMap_eq_nil_iff]
    intro f hf
    have hm := List.mem_filter.mp hf
    exact hnone f hm.1 hm.2
  have hscan := scanFolders_benign w.fs (w.fs.entries.filter (fun f => f.isDirectory))
    (fun f hf => hbenign f (List.mem_filter.mp hf).1 (List.mem_filter.mp hf).2)
  rw [hnil] at hscan
  unfold runPipeline getPostsFromDir
  rw [hroot, if_pos rfl, hscan]
  rfl

/-- Witness for the amended claim C5: a root with no subdirectory at all
overwrites a stale artifact with the empty array and exits 0. -/
theorem C5_empty_array_on_no_valid_units_witness :
    runPipeline { fs := fsEmptyRoot, output := some "stale" } =
      ({ fs := fsEmptyRoot, output := some "[]" }, 0) :=
  C5_empty_array_on_no_valid_units { fs := fsEmptyRoot, output := some "stale" }
    rfl (by decide) (by decide)

/-- Claim C6: the scanner looks only at the direct subdirectories of the
root — plain files among the entries are ignored, a folder is processed as
a candidate exactly when its index.md exists, and a subdirectory lacking
index.md is skipped silently, contributing nothing to the scan. -/
theorem C6_scanner_shape (fs : FS) (d : Dirent) (l₁ l₂ : List Dirent) :
    getPostsFromDir { fs with entries := fs.entries.filter (fun f => f.isDirectory) } =
      getPostsFromDir fs ∧
    ((fs.file d.name).existsSync = false → processFolder fs d.name = .ok none) ∧
    (fs.file d.name = .absent →
      scanFolders fs (l₁ ++ d :: l₂) = scanFolders fs (l₁ ++ l₂)) := by
  refine ⟨?_, fun h => ?_, fun h => ?_⟩
  · unfold getPostsFromDir
    cases hr : fs.rootExists with
    | false => rfl
    | true =>
      rw [if_pos rfl, if_pos rfl]
      have hff : (fs.entries.filter (fun f => f.isDirectory)).filter
            (fun f => f.isDirectory) =
          fs.entries.filter (fun f => f.isDirectory) :=
        List.filter_eq_self.mpr (fun a ha => (List.mem_filter.mp ha).2)
      calc scanFolders
            { rootExists := true, entries := fs.entries.filter (fun f => f.isDirectory),
              file := fs.file }
            ((fs.entries.filter (fun f => f.isDirectory)).filter (fun f => f.isDirectory))
          = scanFolders
            { rootExists := true, entries := fs.entries.filter (fun f => f.isDirectory),
              file := fs.file }
            (fs.entries.filter (fun f => f.isDirectory)) := by rw [hff]
        _ = scanFolders fs (fs.entries.filter (fun f => f.isDirectory)) :=
            scanFolders_congr _ fs _ (fun f _ => rfl)
  · simp [processFolder, h]
  · have hp : processFolder fs d.name = .ok none := by
      simp [processFolder, h, FileState.existsSync]
    exact scanFolders_skip fs d hp l₁ l₂

/-- Witness for claim C6: in fsSample the subdirectory 03-empty (no
index.md) contributes nothing to the scan. -/
theorem C6_scanner_shape_witness :
    scanFolders fsSample ([⟨"01-post", true⟩] ++ ⟨"03-empty", true⟩ :: []) =
      scanFolders fsSample ([⟨"01-post", true⟩] ++ []) :=
  (C6_scanner_shape fsSample ⟨"03-empty", true⟩ [⟨"01-post", true⟩] []).2.2 rfl

/-- Claim C7: two runs over filesystems with the same root existence, the
same directory enumeration and the same file bytes produce the same result,
and hence byte-for-byte identical serialized JSON (the per-record key order
being the fixed title, summary, url order of the serializer). -/
theorem C7_deterministic (fs₁ fs₂ : FS)
    (hroot : fs₁.rootExists = fs₂.rootExists)
    (hentries : fs₁.entries = fs₂.entries)
    (hfile : ∀ f ∈ fs₁.entries, fs₁.file f.name = fs₂.file f.name) :
    getPostsFromDir fs₁ = getPostsFromDir fs₂ ∧
    (getPostsFromDir fs₁).map stringifyPosts = (getPostsFromDir fs₂).map stringifyPosts := by
  have heq : getPostsFromDir fs₁ = getPostsFromDir fs₂ := by
    unfold getPostsFromDir
    rw [hroot, hentries]
    cases fs₂.rootExists with
    | false => rfl
    | true =>
      rw [if_pos rfl, if_pos rfl]
      exact scanFolders_congr fs₁ fs₂ _
        (fun f hf => hfile f (by rw [hentries]; exact (List.mem_filter.mp hf).1))
  exact ⟨heq, by rw [heq]⟩

/-- Witness for claim C7: fsSample and fsSampleTwin enumerate the same
entries with the same file contents and produce the same result. -/
theorem C7_deterministic_witness :
    getPostsFromDir fsSample = getPostsFromDir fsSampleTwin :=
  (C7_deterministic fsSample fsSampleTwin rfl rfl (by decide)).1

/-- Claim C8: the output sequence is the directory-enumeration sequence
restricted to the included units, and the artifact is written exactly once,
after the whole scan has completed, as the serialization of the full
collected list. -/
theorem C8_order_single_write (w : World) (posts : List Post)
    (hok : getPostsFromDir w.fs = .ok posts) :
    posts = (w.fs.entries.filter (fun f => f.isDirectory)).filterMap
      (fun f => includedRecord w.fs f.name) ∧
    runPipeline w = ({ w with output := some (stringifyPosts posts) }, 0) := by
  refine ⟨(getPostsFromDir_ok w.fs posts hok).2, ?_⟩
  unfold runPipeline
  rw [hok]

/-- Witness for claim C8 on fsSample. -/
theorem C8_order_single_write_witness :
    runPipeline { fs := fsSample, output := none } =
      ({ fs := fsSample, output := some (stringifyPosts [samplePost]) }, 0) :=
  (C8_order_single_write { fs := fsSample, output := none } [samplePost] rfl).2

/-- Claim C9: every emitted record consists of exactly the three fields
title, summary and url in that fixed order, and the title and summary
values are exactly the values found in the front matter, with no
transformation applied to them. -/
theorem C9_fields_exact_verbatim (fs : FS) (posts : List Post) (p : Post)
    (hok : getPostsFromDir fs = .ok posts) (hp : p ∈ posts) :
    (postFields p).map Prod.fst = ["title", "summary", "url"] ∧
    ∃ d ∈ fs.entries, d.isDirectory = true ∧
      ∃ data body, fs.file d.name = .readable (.front data body) ∧
        data.lookup "title" = some p.title ∧ data.lookup "summary" = some p.summary := by
  refine ⟨rfl, ?_⟩
  obtain ⟨d, hd, hdir, hinc⟩ := mem_ok_posts fs posts p hok hp
  refine ⟨d, hd, hdir, ?_⟩
  cases hf : fs.file d.name with
  | absent => simp [includedRecord, hf] at hinc
  | unreadable => simp [includedRecord, hf] at hinc
  | readable doc =>
    cases doc with
    | noFront body => simp [includedRecord, hf] at hinc
    | malformed => simp [includedRecord, hf] at hinc
    | front data body =>
      refine ⟨data, body, rfl, ?_⟩
      simp only [includedRecord, validRecord, hf] at hinc
      cases ht : data.lookup "title" with
      | none => rw [ht] at hinc; simp at hinc
      | some t =>
        cases hs : data.lookup "summary" with
        | none => rw [ht, hs] at hinc; simp at hinc
        | some s =>
          rw [ht, hs] at hinc
          by_cases hts : (t.truthy && s.truthy) = true
          · simp only [hts, if_true, Option.some.injEq] at hinc
            rw [← hinc]
            exact ⟨rfl, rfl⟩
          · simp [hts] at hinc

/-- Witness for claim C9 on fsSample: the emitted record has exactly the
fields title, summary, url. -/
theorem C9_fields_exact_verbatim_witness :
    (postFields samplePost).map Prod.fst = ["title", "summary", "url"] :=
  (C9_fields_exact_verbatim fsSample [samplePost] samplePost rfl (by decide)).1

theorem urls_nodup_of_names_nodup (fs : FS) (l : List Dirent)
    (h : (l.map Dirent.name).Nodup) :
    ((l.filterMap (fun f => includedRecord fs f.name)).map Post.url).Nodup := by
  induction l with
  | nil => exact List.nodup_nil
  | cons f rest ih =>
    rw [List.map_cons, List.nodup_cons] at h
    rw [List.filterMap_cons]
    cases hi : includedRecord fs f.name with
    | none => exact ih h.2
    | some p =>
      rw [List.map_cons, List.nodup_cons]
      refine ⟨fun hcontra => ?_, ih h.2⟩
      obtain ⟨q, hq, hqurl⟩ := List.mem_map.mp hcontra
      obtain ⟨g, hg, hginc⟩ := List.mem_filterMap.mp hq
      have h1 := includedRecord_url fs g.name q hginc
      have h2 := includedRecord_url fs f.name p hi
      have hname : g.name = f.name := blogUrlInjective _ _ (by rw [← h1, ← h2, hqurl])
      exact h.1 (hname ▸ List.mem_map_of_mem Dirent.name hg)

/-- Claim C10: when the enumerated entry names are pairwise distinct (as a
single readdir enumeration guarantees), the urls of the emitted records are
pairwise distinct, and at most one record is emitted per subdirectory. -/
theorem C10_urls_pairwise_distinct (fs : FS) (posts : List Post)
    (hnodup : (fs.entries.map Dirent.name).Nodup)
    (hok : getPostsFromDir fs = .ok posts) :
    (posts.map Post.url).Nodup ∧
    posts.length ≤ (fs.entries.filter (fun f => f.isDirectory)).length := by
  obtain ⟨-, hchar⟩ := getPostsFromDir_ok fs posts hok
  constructor
  · rw [hchar]
    exact urls_nodup_of_names_nodup fs _ (dirs_names_nodup fs hnodup)
  · rw [hchar]
    exact List.length_filterMap_le _ _

/-- Witness for claim C10 on fsSample. -/
theorem C10_urls_pairwise_distinct_witness :
    (([samplePost] : List Post).map Post.url).Nodup ∧
    ([samplePost] : List Post).length ≤
      (fsSample.entries.filter (fun f => f.isDirectory)).length :=
  C10_urls_pairwise_distinct fsSample [samplePost] (by decide) rfl
